import Mathlib

/-!
Shallow embedding of the risk-scoring and aggregation engine of the
Cyber-Threat-Intelligence platform, namely the two modules

  services/intel-api/strategy/scoring.py
  services/intel-api/strategy/aggregator.py

Modelling conventions, used throughout:

* Python numbers: Python ints are modelled as ℤ (or ℕ where the source
  value is manifestly non-negative), Python floats as exact rationals ℚ.
* Python round is round-half-to-even returning an int; it is modelled
  exactly by pyRound below.  Python int() applied to a float truncates
  toward zero; it is modelled by ratTrunc.
* Python substring test (needle in hay) is modelled by pyIn on the
  underlying character lists.
* datetime.fromisoformat (standard library, outside the repository)
  either returns an instant or raises ValueError on a non-parseable
  string.  The created_at field of an item is therefore modelled by the
  inductive CreatedAt: absent covers a missing key, None and the empty
  string (all falsy, replaced by the current time by the source line
  item.get("created_at") or datetime.now(...).isoformat()), valid t
  covers a parseable string denoting the instant t in epoch seconds, and
  malformed covers a non-empty non-parseable string, on which
  fromisoformat raises.  Since scoring.py has no try/except around the
  parse, the raise propagates: functions that can hit it return Option,
  with none standing for the propagated exception.
* The wall clock datetime.now is passed in explicitly as a rational
  number of epoch seconds (parameter now).
* Python dicts holding configured keyword boosts or counters are
  modelled as association lists in insertion order.
-/

/-- Python round: round half to even, on exact rationals. -/
def pyRound (q : ℚ) : ℤ :=
  let f : ℤ := ⌊q⌋
  let r : ℚ := q - f
  if r < 1 / 2 then f
  else if 1 / 2 < r then f + 1
  else if 2 ∣ f then f else f + 1

/-- Python int() on a float: truncation toward zero. -/
def ratTrunc (q : ℚ) : ℤ := if 0 ≤ q then ⌊q⌋ else ⌈q⌉

/-- Python substring test: needle in hay (verbatim, no case folding). -/
def pyIn (needle hay : String) : Bool := decide (needle.data <:+: hay.data)

/-- Python str.lower(): per-character lowering (the texts and keywords
involved are ASCII, where Char.toLower agrees with Python). -/
def pyLower (s : String) : String := String.mk (s.data.map Char.toLower)

/-- Model of an item timestamp string; see the module comment. -/
inductive CreatedAt where
  | absent
  | valid (t : ℚ)
  | malformed
deriving DecidableEq

/-- Model of the confidence field of an item: absent covers a missing key
or None, num q a numeric value worth exactly q, bad a value on which
Python int() raises (so the source defaults it to 50). -/
inductive ConfVal where
  | absent
  | num (q : ℚ)
  | bad
deriving DecidableEq

/-- An intelligence item as consumed by compute_risk_score: name and
description are absent-or-string, confidence and created_at as above. -/
structure IntelItem where
  name : Option String
  description : Option String
  confidence : ConfVal
  created_at : CreatedAt
deriving DecidableEq

/-- The org_profile mapping with its three keyword lists (a missing key
yields the empty list via .get(key, []), hence plain lists here). -/
structure OrgProfile where
  sector_keywords : List String
  geo_keywords : List String
  tech_keywords : List String
deriving DecidableEq

/-- cfg["scoring"]["weights"]: the five required weight entries. -/
structure Weights where
  source_reliability : ℚ
  confidence : ℚ
  severity : ℚ
  relevance : ℚ
  recency : ℚ
deriving DecidableEq

/-- cfg["scoring"]["recency"] after the float(...get(...)) defaulting:
max_days defaults to 14, max_points to 25. -/
structure RecencyCfg where
  max_days : ℚ
  max_points : ℚ
deriving DecidableEq

/-- cfg["scoring"] after defaulting: base_severity defaults to 10,
severity_keywords to the empty mapping (an association list keyword to
boost points, in dict insertion order). -/
structure ScoringCfg where
  weights : Weights
  base_severity : ℤ
  severity_keywords : List (String × ℤ)
  recency : RecencyCfg
deriving DecidableEq

/-- cfg["decisions"]: the two required thresholds. -/
structure Decisions where
  block_now : ℤ
  monitor : ℤ
deriving DecidableEq

/-- The whole configuration document, holding the keys the scoring
module reads. -/
structure Cfg where
  scoring : ScoringCfg
  decisions : Decisions
deriving DecidableEq

/-- _days_old on an already-parsed instant t: age in days of t relative
to now, floored at 0 (source line max(0.0, (now - dt).total_seconds() / 86400.0)). -/
def days_old (now t : ℚ) : ℚ := max 0 ((now - t) / 86400)

/-- compute_relevance: 2 hit points per matching sector keyword, 2 per
geo keyword, 1 per tech keyword, all case-insensitive substring matches
on the lowered text; result is min(25, hits * 3); empty text short-circuits
to 0. -/
def compute_relevance (text : String) (org : OrgProfile) : ℤ :=
  if text = "" then 0 else
  let t := pyLower text
  let h1 : ℤ := org.sector_keywords.foldl (fun h k => if pyIn (pyLower k) t then h + 2 else h) 0
  let h2 : ℤ := org.geo_keywords.foldl (fun h k => if pyIn (pyLower k) t then h + 2 else h) h1
  let hits : ℤ := org.tech_keywords.foldl (fun h k => if pyIn (pyLower k) t then h + 1 else h) h2
  min 25 (hits * 3)

/-- compute_severity: base_severity, plus the configured boost points of
every severity keyword found (case-insensitive substring) in the text,
capped at 50; empty text short-circuits to the bare base. -/
def compute_severity (text : String) (cfg : Cfg) : ℤ :=
  let base := cfg.scoring.base_severity
  if text = "" then base else
  let t := pyLower text
  min 50 (cfg.scoring.severity_keywords.foldl
    (fun s kp => if pyIn (pyLower kp.1) t then s + kp.2 else s) base)

/-- The age-to-points part of compute_recency_points: 0 once the age
reaches max_days, otherwise linear decay max_points * (1 - d / max_days)
rounded via Python round. -/
def recency_points_of_age (cfg : Cfg) (d : ℚ) : ℤ :=
  let md := cfg.scoring.recency.max_days
  let mp := cfg.scoring.recency.max_points
  if md ≤ d then 0 else pyRound (mp * (1 - d / md))

/-- compute_recency_points on an item timestamp, with the falsy-field
substitution performed by compute_risk_score folded in: an absent (or
None or empty) created_at was replaced by the current time, hence age
days_old now now = 0; a malformed one makes fromisoformat raise (none). -/
def compute_recency_points (now : ℚ) (ca : CreatedAt) (cfg : Cfg) : Option ℤ :=
  match ca with
  | .malformed => none
  | .absent => some (recency_points_of_age cfg (days_old now now))
  | .valid t => some (recency_points_of_age cfg (days_old now t))

/-- normalize_confidence: int(conf) when that succeeds, 50 when conf is
None/absent or int() raises, then clamped to [0, 100]. -/
def normalize_confidence (conf : ConfVal) : ℤ :=
  let c : ℤ := match conf with
    | .absent => 50
    | .num q => ratTrunc q
    | .bad => 50
  max 0 (min 100 c)

/-- normalize_source_reliability: constant baseline. -/
def normalize_source_reliability : ℤ := 60

/-- decision_label: BLOCK above block_now, MONITOR above monitor, else
IGNORE. -/
def decision_label (risk : ℤ) (cfg : Cfg) : String :=
  if cfg.decisions.block_now ≤ risk then "BLOCK"
  else if cfg.decisions.monitor ≤ risk then "MONITOR"
  else "IGNORE"

/-- The components mapping of a RiskScoreResult. -/
structure Components where
  source : ℤ
  confidence : ℤ
  severity : ℤ
  relevance : ℤ
  recency : ℤ
deriving DecidableEq

/-- The value returned by compute_risk_score. -/
structure RiskScoreResult where
  risk : ℤ
  components : Components
deriving DecidableEq

/-- compute_risk_score: weighted sum of the five components (severity
doubled, relevance and recency quadrupled before weighting), clamped to
[0, 100] and rounded; none models the ValueError propagated out of
_days_old on a malformed created_at. -/
def compute_risk_score (now : ℚ) (item : IntelItem) (org : OrgProfile) (cfg : Cfg) :
    Option RiskScoreResult :=
  let w := cfg.scoring.weights
  let text := (item.name.getD "") ++ "\n" ++ (item.description.getD "")
  let src := normalize_source_reliability
  let conf := normalize_confidence item.confidence
  let sev := compute_severity text cfg
  let rel := compute_relevance text org
  match compute_recency_points now item.created_at cfg with
  | none => none
  | some rp =>
    let score : ℚ :=
      w.source_reliability * src + w.confidence * conf + w.severity * (sev * 2)
        + w.relevance * (rel * 4) + w.recency * (rp * 4)
    some { risk := pyRound (max 0 (min 100 score)),
           components :=
             { source := src, confidence := conf, severity := sev,
               relevance := rel, recency := rp } }

/-!
Embedding of services/intel-api/strategy/aggregator.py (the parts the
claims are about: theme counting, trend partition, keyword-bag
clustering).  Python Counter objects are modelled as association lists
in insertion order; Python sets of strings as duplicate-free lists.
Where the source iterates over a Python set (whose order is
unspecified), the model fixes a concrete order and says so; no property
proved below depends on that order.
-/

/-- THEME_KEYWORDS: the fixed theme vocabulary. -/
def THEME_KEYWORDS : List String :=
  ["ransomware", "phishing", "credential", "exploit", "zero-day", "c2",
   "botnet", "malware", "apt", "supply chain", "ddos"]

/-- Counter increment c[k] += 1 on the association-list model: bump the
first binding of k, or append a fresh binding (k, 1) at the end, exactly
the insertion-order behaviour of a Python Counter. -/
def bump : List (String × Nat) → String → List (String × Nat)
  | [], k => [(k, 1)]
  | (k', n) :: rest, k =>
      if k' = k then (k', n + 1) :: rest else (k', n) :: bump rest k

/-- theme_counts: for each text, bump the counter of every vocabulary
keyword occurring in the lowered text (at most one bump per keyword per
text, since the vocabulary list is duplicate-free). -/
def theme_counts (texts : List String) : List (String × Nat) :=
  texts.foldl
    (fun c t => THEME_KEYWORDS.foldl
      (fun c' k => if pyIn k (pyLower t) then bump c' k else c') c) []

/-- Counter lookup with default 0 (curr.get(k, 0)). -/
def cget (c : List (String × Nat)) (k : String) : Nat := (List.lookup k c).getD 0

/-- Insert into a sorted list: a goes in front of the first element b
with le a b (stable insertion). -/
def insertLe {α : Type} (le : α → α → Bool) (a : α) : List α → List α
  | [] => [a]
  | b :: bs => if le a b then a :: b :: bs else b :: insertLe le a bs

/-- Stable sort by the Boolean comparator le (a may precede b whenever
le a b); models the Python stable sorted(...) up to the order of ties,
which no property below depends on. -/
def sortLe {α : Type} (le : α → α → Bool) : List α → List α
  | [] => []
  | a :: as => insertLe le a (sortLe le as)

/-- The value returned by theme_trends. -/
structure TrendResult where
  rising : List (String × ℤ)
  falling : List (String × ℤ)
  stable : List (String × ℤ)
deriving DecidableEq

/-- theme_trends: deltas of curr minus prev over the key union, split by
sign into rising (sorted by delta descending), falling (sorted by delta
ascending) and stable (sorted by current count descending), each
truncated to the first top_n entries.  The Python set of keys iterates
in unspecified order; the model uses first-occurrence order. -/
def theme_trends (curr prev : List (String × Nat)) (top_n : Nat) : TrendResult :=
  let keys := (curr.map Prod.fst ++ prev.map Prod.fst).dedup
  let deltas := keys.map (fun k => (k, (cget curr k : ℤ) - (cget prev k : ℤ)))
  { rising :=
      (sortLe (fun a b => b.2 ≤ a.2) (deltas.filter (fun x => 0 < x.2))).take top_n
    falling :=
      (sortLe (fun a b => a.2 ≤ b.2) (deltas.filter (fun x => x.2 < 0))).take top_n
    stable :=
      (sortLe (fun a b => cget curr b.1 ≤ cget curr a.1)
        (deltas.filter (fun x => x.2 = 0))).take top_n }

/-- A character matched by the token regex [a-z0-9] after lowering. -/
def isTokChar (c : Char) : Bool :=
  (decide ('a' ≤ c) && decide (c ≤ 'z')) || (decide ('0' ≤ c) && decide (c ≤ '9'))

/-- Maximal runs of token characters in a character list (what
re.findall with the greedy pattern [a-z0-9]{3,} walks over, before the
length cut). -/
def tokenRuns : List Char → List (List Char)
  | [] => []
  | c :: cs =>
    let rs := tokenRuns cs
    if isTokChar c then
      match cs, rs with
      | c2 :: _, r :: rt => if isTokChar c2 then (c :: r) :: rt else [c] :: rs
      | _, _ => [c] :: rs
    else rs

/-- _token_re.findall on the lowered text: maximal alphanumeric runs of
length at least 3. -/
def findTokens (s : String) : List String :=
  ((tokenRuns (pyLower s).data).filter (fun r => 3 ≤ r.length)).map List.asString

/-- The fixed stopword list of _bag. -/
def STOPWORDS : List String :=
  ["the", "and", "for", "with", "from", "that", "this", "into", "your", "are",
   "was", "were", "has", "have", "not", "but", "new", "using", "used", "over",
   "under", "via", "its", "their", "they", "them", "will", "can", "may",
   "attack", "attacks", "threat", "threats", "report", "reports"]

/-- _bag: the set of tokens of length at least 4 that are not stopwords.
A Python set of strings is modelled as a duplicate-free list; its
iteration order is unspecified in the source, and no property proved
below depends on the order chosen by the model. -/
def _bag (text : String) : List String :=
  ((findTokens text).filter (fun t => t ∉ STOPWORDS ∧ 4 ≤ t.length)).dedup

/-- Jaccard similarity of two keyword bags (duplicate-free lists), 0
when either is empty. -/
def jacc (a b : List String) : ℚ :=
  if a = [] ∨ b = [] then 0
  else
    let inter := (a.inter b).length
    let union := (a.union b).length
    if union = 0 then 0 else (inter : ℚ) / (union : ℚ)

/-- A growing cluster of the greedy pass: member indices plus the
running centroid (union of the member bags). -/
structure GCluster where
  idx : List Nat
  centroid : List String
deriving DecidableEq

/-- Try to place item i with bag b into the first cluster whose centroid
is similar enough; none if no cluster qualifies. -/
def place (th : ℚ) (b : List String) (i : Nat) : List GCluster → Option (List GCluster)
  | [] => none
  | c :: cs =>
    if th ≤ jacc b c.centroid then
      some ({ idx := c.idx ++ [i], centroid := c.centroid.union b } :: cs)
    else (place th b i cs).map (c :: ·)

/-- One step of the greedy loop: place the item, or open a new cluster. -/
def stepCluster (th : ℚ) (cs : List GCluster) (p : Nat × List String) : List GCluster :=
  match place th p.2 p.1 cs with
  | some cs' => cs'
  | none => cs ++ [{ idx := [p.1], centroid := p.2 }]

/-- The full greedy pass of cluster_reports over the enumerated bags. -/
def greedyClusters (th : ℚ) (bags : List (List String)) : List GCluster :=
  bags.enum.foldl (stepCluster th) []

/-- One record of the list returned by cluster_reports: member count and
the reported representative keywords. -/
structure OutCluster where
  count : Nat
  keywords : List String
deriving DecidableEq

/-- cluster_reports: greedy Jaccard clustering of the per-text keyword
bags, sorted by size descending, top max_clusters kept and the rest
merged into one overflow cluster; each output record carries the member
count and up to 6 centroid keywords (most_common(6) of a Counter in
which every centroid member has multiplicity 1, hence the first 6 of the
centroid in iteration order; the source order is unspecified, the model
takes its own centroid-list order, on which no property below
depends). -/
def cluster_reports (texts : List String) (max_clusters : Nat) (sim_threshold : ℚ) :
    List OutCluster :=
  let bags := texts.map _bag
  let clusters := greedyClusters sim_threshold bags
  let sorted := sortLe (fun a b => b.idx.length ≤ a.idx.length) clusters
  let kept := sorted.take max_clusters
  let rest := sorted.drop max_clusters
  let kept2 :=
    if rest = [] then kept
    else kept ++ [{ idx := rest.foldl (fun acc r => acc ++ r.idx) []
                    centroid := rest.foldl (fun acc r => acc.union r.centroid) [] }]
  kept2.map (fun c =>
    { count := c.idx.length
      keywords := c.centroid.take 6 })

/-!
Helper lemmas about the Python primitives.
-/

theorem pyRound_ge_floor (q : ℚ) : ⌊q⌋ ≤ pyRound q := by
  simp only [pyRound]
  split_ifs <;> omega

theorem pyRound_le_floor_add_one (q : ℚ) : pyRound q ≤ ⌊q⌋ + 1 := by
  simp only [pyRound]
  split_ifs <;> omega

theorem pyRound_intCast (n : ℤ) : pyRound (n : ℚ) = n := by
  simp only [pyRound]
  norm_num [Int.floor_intCast]

theorem pyRound_mono {q1 q2 : ℚ} (h : q1 ≤ q2) : pyRound q1 ≤ pyRound q2 := by
  rcases lt_or_eq_of_le (Int.floor_le_floor h) with hf | hf
  · calc pyRound q1 ≤ ⌊q1⌋ + 1 := pyRound_le_floor_add_one q1
      _ ≤ ⌊q2⌋ := by omega
      _ ≤ pyRound q2 := pyRound_ge_floor q2
  · simp only [pyRound]
    rw [← hf]
    have hr : q1 - (⌊q1⌋ : ℚ) ≤ q2 - (⌊q1⌋ : ℚ) := by linarith
    split_ifs <;> first
      | omega
      | (exfalso; linarith)

theorem pyRound_nonneg {q : ℚ} (h : 0 ≤ q) : 0 ≤ pyRound q := by
  have h0 : pyRound ((0 : ℤ) : ℚ) ≤ pyRound q := pyRound_mono (by exact_mod_cast h)
  rwa [pyRound_intCast] at h0

theorem pyRound_le_int {q : ℚ} {n : ℤ} (h : q ≤ (n : ℚ)) : pyRound q ≤ n := by
  have h0 : pyRound q ≤ pyRound ((n : ℤ) : ℚ) := pyRound_mono h
  rwa [pyRound_intCast] at h0

/-!
Component-level lemmas for the scoring module.
-/

theorem days_old_nonneg (now t : ℚ) : 0 ≤ days_old now t := le_max_left 0 _

theorem days_old_self (now : ℚ) : days_old now now = 0 := by
  simp [days_old]

theorem recency_points_of_age_zero (cfg : Cfg) (d : ℚ)
    (h : cfg.scoring.recency.max_days ≤ d) : recency_points_of_age cfg d = 0 := by
  simp [recency_points_of_age, h]

theorem recency_points_of_age_at_zero (cfg : Cfg) (mp : ℤ)
    (hmd : 0 < cfg.scoring.recency.max_days)
    (hmp : cfg.scoring.recency.max_points = (mp : ℚ)) :
    recency_points_of_age cfg 0 = mp := by
  simp only [recency_points_of_age, not_le.mpr hmd, if_false]
  rw [hmp]
  norm_num [pyRound_intCast]

theorem recency_points_of_age_bounds (cfg : Cfg) (d : ℚ) (hd : 0 ≤ d) (mp : ℤ)
    (hmp : cfg.scoring.recency.max_points = (mp : ℚ)) (hmp0 : 0 ≤ mp) :
    0 ≤ recency_points_of_age cfg d ∧ recency_points_of_age cfg d ≤ mp := by
  simp only [recency_points_of_age]
  split_ifs with hle
  · omega
  · push_neg at hle
    have hmd : 0 < cfg.scoring.recency.max_days := lt_of_le_of_lt hd hle
    have hfrac0 : 0 ≤ d / cfg.scoring.recency.max_days := div_nonneg hd (le_of_lt hmd)
    have hfrac1 : d / cfg.scoring.recency.max_days < 1 := (div_lt_one hmd).mpr hle
    have hmp0' : (0 : ℚ) ≤ (mp : ℚ) := by exact_mod_cast hmp0
    rw [hmp]
    constructor
    · exact pyRound_nonneg (by nlinarith)
    · exact pyRound_le_int (by nlinarith)

theorem recency_points_of_age_antitone (cfg : Cfg) (a1 a2 : ℚ) (h0 : 0 ≤ a1)
    (h : a1 ≤ a2) (mp : ℤ) (hmp : cfg.scoring.recency.max_points = (mp : ℚ))
    (hmp0 : 0 ≤ mp) :
    recency_points_of_age cfg a2 ≤ recency_points_of_age cfg a1 := by
  by_cases h1 : cfg.scoring.recency.max_days ≤ a1
  · rw [recency_points_of_age_zero cfg a1 h1,
      recency_points_of_age_zero cfg a2 (le_trans h1 h)]
  · push_neg at h1
    have hmd : 0 < cfg.scoring.recency.max_days := lt_of_le_of_lt h0 h1
    by_cases h2 : cfg.scoring.recency.max_days ≤ a2
    · rw [recency_points_of_age_zero cfg a2 h2]
      exact (recency_points_of_age_bounds cfg a1 h0 mp hmp hmp0).1
    · push_neg at h2
      simp only [recency_points_of_age, not_le.mpr h1, not_le.mpr h2, if_false]
      apply pyRound_mono
      have hmp0' : (0 : ℚ) ≤ (mp : ℚ) := by exact_mod_cast hmp0
      rw [hmp]
      have hdiv : a1 / cfg.scoring.recency.max_days ≤ a2 / cfg.scoring.recency.max_days :=
        (div_le_div_iff_of_pos_right hmd).mpr h
      nlinarith

theorem compute_relevance_le (text : String) (org : OrgProfile) :
    compute_relevance text org ≤ 25 := by
  simp only [compute_relevance]
  split_ifs
  · norm_num
  · exact min_le_left 25 _

theorem compute_severity_le (text : String) (cfg : Cfg) (h : text ≠ "") :
    compute_severity text cfg ≤ 50 := by
  simp only [compute_severity, if_neg h]
  exact min_le_left 50 _

theorem append_newline_ne_empty (a b : String) : a ++ "\n" ++ b ≠ "" := by
  intro hcontra
  have h1 : (a ++ "\n" ++ b).length = ("" : String).length := by rw [hcontra]
  simp [String.length_append] at h1
  exact absurd h1.1.2 (by decide)

theorem normalize_confidence_bounds (conf : ConfVal) :
    0 ≤ normalize_confidence conf ∧ normalize_confidence conf ≤ 100 := by
  refine ⟨le_max_left 0 _, ?_⟩
  simp only [normalize_confidence]
  exact max_le (by norm_num) (min_le_left 100 _)

/-- The text compute_risk_score builds for matching. -/
def item_text (item : IntelItem) : String :=
  (item.name.getD "") ++ "\n" ++ (item.description.getD "")

/-- Characterization of a successful compute_risk_score run: the risk is
the rounded clamp of some weighted score, and each component is the
corresponding sub-score, the recency one at some non-negative age. -/
theorem compute_risk_score_spec (now : ℚ) (item : IntelItem) (org : OrgProfile)
    (cfg : Cfg) (r : RiskScoreResult)
    (h : compute_risk_score now item org cfg = some r) :
    ∃ s d : ℚ, 0 ≤ d
      ∧ r.risk = pyRound (max 0 (min 100 s))
      ∧ r.components.source = 60
      ∧ r.components.confidence = normalize_confidence item.confidence
      ∧ r.components.severity = compute_severity (item_text item) cfg
      ∧ r.components.relevance = compute_relevance (item_text item) org
      ∧ r.components.recency = recency_points_of_age cfg d := by
  cases hca : item.created_at with
  | malformed =>
    simp [compute_risk_score, compute_recency_points, hca] at h
  | absent =>
    simp only [compute_risk_score, compute_recency_points, hca,
      Option.some.injEq] at h
    subst h
    exact ⟨_, days_old now now, days_old_nonneg now now, rfl, rfl, rfl, rfl, rfl, rfl⟩
  | valid t =>
    simp only [compute_risk_score, compute_recency_points, hca,
      Option.some.injEq] at h
    subst h
    exact ⟨_, days_old now t, days_old_nonneg now t, rfl, rfl, rfl, rfl, rfl, rfl⟩

/-- A typical configuration: equal weights 0.2, base severity 10, one
severity keyword, default recency window, thresholds 80/60. -/
def cfg0 : Cfg :=
  ⟨⟨⟨1/5, 1/5, 1/5, 1/5, 1/5⟩, 10, [("ransomware", 15)], ⟨14, 25⟩⟩, ⟨80, 60⟩⟩

/-- An empty org profile. -/
def org0 : OrgProfile := ⟨[], [], []⟩

/-- A well-formed concrete item. -/
def item0 : IntelItem := ⟨some "Ransomware hits", some "desc", .num 90, .absent⟩

/-- The result compute_risk_score returns on item0 / org0 / cfg0. -/
def result0 : RiskScoreResult := ⟨60, ⟨60, 90, 25, 0, 25⟩⟩

/-- An item whose created_at string is non-empty but not parseable. -/
def itemMal : IntelItem := ⟨some "Alert", some "desc", .num 90, .malformed⟩

/-- An item with every optional field missing. -/
def itemAbsent : IntelItem := ⟨none, none, .absent, .absent⟩

theorem item_text_ne_empty (item : IntelItem) : item_text item ≠ "" :=
  append_newline_ne_empty _ _

/-- Like cfg0 but with a negative recency max_points. -/
def cfgNegMP : Cfg := ⟨⟨⟨1/5, 1/5, 1/5, 1/5, 1/5⟩, 10, [], ⟨14, -1⟩⟩, ⟨80, 60⟩⟩

/-- Like cfg0 but with a fractional recency max_points of 24.6. -/
def cfgFracMP : Cfg := ⟨⟨⟨1/5, 1/5, 1/5, 1/5, 1/5⟩, 10, [], ⟨14, 123/5⟩⟩, ⟨80, 60⟩⟩

/-- pyRound of anything equal to an integer is that integer. -/
theorem pyRound_eq_self {q : ℚ} {n : ℤ} (h : q = (n : ℚ)) : pyRound q = n := by
  rw [h, pyRound_intCast]

theorem floor_of_246 : (⌊(123/5 : ℚ)⌋ : ℤ) = 24 := by
  rw [Int.floor_eq_iff]
  norm_num

/-- Python round(24.6) = 25. -/
theorem pyRound_of_246 : pyRound (123/5 : ℚ) = 25 := by
  simp only [pyRound, floor_of_246]
  norm_num

theorem pyRound_neg_one : pyRound (-1 : ℚ) = -1 := pyRound_eq_self (by norm_num)

/-- C1, counterexample to the claim as stated: with the required keys
present, a config may still carry recency max_points = -1 (the recency
component then is -1, outside [0, max_points]) or max_points = 24.6
(the rounded component 25 then exceeds max_points), so the recency cap
does not hold for every config with the required keys. -/
theorem C1_counterexample :
    ((compute_risk_score 0 itemAbsent org0 cfgNegMP).map
        (fun r => r.components.recency) = some (-1) ∧ ¬(0 ≤ (-1 : ℤ)))
    ∧ ((compute_risk_score 0 itemAbsent org0 cfgFracMP).map
        (fun r => r.components.recency) = some 25
      ∧ ¬((25 : ℚ) ≤ cfgFracMP.scoring.recency.max_points)) := by
  refine ⟨⟨?_, by norm_num⟩, ?_, by norm_num [cfgFracMP]⟩
  · simp only [compute_risk_score, compute_recency_points, itemAbsent, Option.map_some]
    rw [days_old_self]
    simp only [recency_points_of_age, cfgNegMP]
    norm_num [pyRound_neg_one]
  · simp only [compute_risk_score, compute_recency_points, itemAbsent, Option.map_some]
    rw [days_old_self]
    simp only [recency_points_of_age, cfgFracMP]
    norm_num [pyRound_of_246]

/-- C1 (amended): for every item, org profile and config with the
required keys, a returned risk value is an integer in [0, 100], the
source component is 60, confidence lies in [0, 100], severity is at most
50, relevance at most 25; and provided the configured recency max_points
is a non-negative integer (as the default 25 is), the recency component
lies in [0, max_points]. -/
theorem C1_amended_caps (now : ℚ) (item : IntelItem) (org : OrgProfile) (cfg : Cfg)
    (r : RiskScoreResult) (mp : ℤ)
    (hmp : cfg.scoring.recency.max_points = (mp : ℚ)) (hmp0 : 0 ≤ mp)
    (h : compute_risk_score now item org cfg = some r) :
    0 ≤ r.risk ∧ r.risk ≤ 100
      ∧ r.components.source = 60
      ∧ 0 ≤ r.components.confidence ∧ r.components.confidence ≤ 100
      ∧ r.components.severity ≤ 50
      ∧ r.components.relevance ≤ 25
      ∧ 0 ≤ r.components.recency
      ∧ (r.components.recency : ℚ) ≤ cfg.scoring.recency.max_points := by
  obtain ⟨s, d, hd, hrisk, hsrc, hconf, hsev, hrel, hrec⟩ :=
    compute_risk_score_spec now item org cfg r h
  have hrb := recency_points_of_age_bounds cfg d hd mp hmp hmp0
  refine ⟨?_, ?_, hsrc, ?_, ?_, ?_, ?_, ?_, ?_⟩
  · rw [hrisk]; exact pyRound_nonneg (le_max_left 0 _)
  · rw [hrisk]
    refine pyRound_le_int ?_
    push_cast
    exact max_le (by norm_num) (min_le_left _ _)
  · rw [hconf]; exact (normalize_confidence_bounds _).1
  · rw [hconf]; exact (normalize_confidence_bounds _).2
  · rw [hsev]; exact compute_severity_le _ cfg (item_text_ne_empty item)
  · rw [hrel]; exact compute_relevance_le _ org
  · rw [hrec]; exact hrb.1
  · rw [hrec, hmp]; exact_mod_cast hrb.2

/-- Evaluation of compute_risk_score on the concrete fixtures. -/
theorem compute_risk_score_item0 : compute_risk_score 0 item0 org0 cfg0 = some result0 := by
  have hp : pyIn (pyLower "ransomware") (pyLower ("Ransomware hits" ++ "\n" ++ "desc")) = true := by
    decide
  have hne : ¬(("Ransomware hits" ++ "\n" ++ "desc") = "") := by decide
  have hsev : compute_severity ("Ransomware hits" ++ "\n" ++ "desc") cfg0 = 25 := by
    simp only [compute_severity, cfg0, hne, if_false, List.foldl, hp, if_true]
    norm_num
  have hrel : compute_relevance ("Ransomware hits" ++ "\n" ++ "desc") org0 = 0 := by
    simp only [compute_relevance, org0, hne, if_false, List.foldl]
    norm_num
  have hrec : recency_points_of_age cfg0 (days_old 0 0) = 25 := by
    rw [days_old_self]
    simp only [recency_points_of_age, cfg0]
    rw [if_neg (by norm_num)]
    exact pyRound_eq_self (by norm_num)
  have hconf : normalize_confidence (ConfVal.num 90) = 90 := by
    simp only [normalize_confidence, ratTrunc]
    norm_num
  simp only [compute_risk_score, compute_recency_points, item0, Option.getD, hrec,
    Option.some.injEq, result0, hsev, hrel, hconf]
  norm_num [cfg0, normalize_source_reliability]
  exact pyRound_eq_self (by norm_num)

/-- C1, witness: the amended theorem applied to a concrete run. -/
theorem C1_witness :
    0 ≤ result0.risk ∧ result0.risk ≤ 100
      ∧ result0.components.source = 60
      ∧ 0 ≤ result0.components.confidence ∧ result0.components.confidence ≤ 100
      ∧ result0.components.severity ≤ 50
      ∧ result0.components.relevance ≤ 25
      ∧ 0 ≤ result0.components.recency
      ∧ (result0.components.recency : ℚ) ≤ cfg0.scoring.recency.max_points :=
  C1_amended_caps 0 item0 org0 cfg0 result0 25 (by norm_num [cfg0]) (by norm_num)
    compute_risk_score_item0

/-- C2, counterexample to the claim as stated: on an item whose
created_at is a non-empty non-parseable string, compute_risk_score does
not score the item as if created_at were now; the fromisoformat
ValueError propagates (modelled by none). -/
theorem C2_counterexample : compute_risk_score 0 itemMal org0 cfg0 = none := by
  decide

/-- C2 (amended): a malformed non-empty created_at makes
compute_risk_score raise (propagating the parse error); only a missing,
None or empty created_at is treated as the current time, i.e. age 0, so
the recency component gets the full age-0 credit. -/
theorem C2_amended_malformed_raises (now : ℚ) (item : IntelItem) (org : OrgProfile)
    (cfg : Cfg) :
    (item.created_at = CreatedAt.malformed →
      compute_risk_score now item org cfg = none)
    ∧ (item.created_at = CreatedAt.absent →
      (compute_risk_score now item org cfg).map (fun r => r.components.recency)
        = some (recency_points_of_age cfg 0)) := by
  constructor
  · intro hca
    simp [compute_risk_score, compute_recency_points, hca]
  · intro hca
    simp [compute_risk_score, compute_recency_points, hca, days_old_self]

/-- C2, witness: the amended theorem applied to two concrete items. -/
theorem C2_witness :
    compute_risk_score 0 itemMal org0 cfg0 = none
    ∧ (compute_risk_score 0 itemAbsent org0 cfg0).map (fun r => r.components.recency)
        = some (recency_points_of_age cfg0 0) :=
  ⟨(C2_amended_malformed_raises 0 itemMal org0 cfg0).1 rfl,
   (C2_amended_malformed_raises 0 itemAbsent org0 cfg0).2 rfl⟩

/-- C9: compute_risk_score never raises when created_at is not a
malformed string; a missing name or description behaves exactly like the
empty string, a missing confidence yields component 50, and a missing
created_at behaves exactly like a created_at equal to the current time. -/
theorem C9_missing_fields_defaults (now : ℚ) (item : IntelItem) (org : OrgProfile)
    (cfg : Cfg) (h : item.created_at ≠ CreatedAt.malformed) :
    (compute_risk_score now item org cfg).isSome = true
    ∧ compute_risk_score now { item with name := none } org cfg
        = compute_risk_score now { item with name := some "" } org cfg
    ∧ compute_risk_score now { item with description := none } org cfg
        = compute_risk_score now { item with description := some "" } org cfg
    ∧ (∀ r, compute_risk_score now { item with confidence := ConfVal.absent } org cfg
          = some r → r.components.confidence = 50)
    ∧ compute_risk_score now { item with created_at := CreatedAt.absent } org cfg
        = compute_risk_score now { item with created_at := CreatedAt.valid now } org cfg := by
  refine ⟨?_, ?_, ?_, ?_, ?_⟩
  · cases hca : item.created_at with
    | malformed => exact absurd hca h
    | absent => simp [compute_risk_score, compute_recency_points, hca]
    | valid t => simp [compute_risk_score, compute_recency_points, hca]
  · cases hca : item.created_at <;>
      simp [compute_risk_score, compute_recency_points, hca]
  · cases hca : item.created_at <;>
      simp [compute_risk_score, compute_recency_points, hca]
  · intro r hr
    obtain ⟨s, d, hd, hrisk, hsrc, hconf, hsev, hrel, hrec⟩ :=
      compute_risk_score_spec now _ org cfg r hr
    rw [hconf]
    rfl
  · rfl

/-- C9, witness: the theorem applied to the all-absent item. -/
theorem C9_witness :
    (compute_risk_score 0 itemAbsent org0 cfg0).isSome = true
    ∧ compute_risk_score 0 { itemAbsent with name := none } org0 cfg0
        = compute_risk_score 0 { itemAbsent with name := some "" } org0 cfg0
    ∧ compute_risk_score 0 { itemAbsent with description := none } org0 cfg0
        = compute_risk_score 0 { itemAbsent with description := some "" } org0 cfg0
    ∧ (∀ r, compute_risk_score 0 { itemAbsent with confidence := ConfVal.absent } org0 cfg0
          = some r → r.components.confidence = 50)
    ∧ compute_risk_score 0 { itemAbsent with created_at := CreatedAt.absent } org0 cfg0
        = compute_risk_score 0 { itemAbsent with created_at := CreatedAt.valid 0 } org0 cfg0 :=
  C9_missing_fields_defaults 0 itemAbsent org0 cfg0 (by decide)

/-- Rank of a decision label in the order BLOCK > MONITOR > IGNORE. -/
def labelRank (s : String) : Nat :=
  if s = "BLOCK" then 2 else if s = "MONITOR" then 1 else 0

/-- C5: for a fixed config, decision_label is monotone in risk with
respect to the order BLOCK > MONITOR > IGNORE, and with thresholds
block_now = 80 and monitor = 60 (as in cfg0), risk 80 is BLOCK, 60 is
MONITOR and 59 is IGNORE. -/
theorem C5_decision_label_monotone (cfg : Cfg) (r1 r2 : ℤ) (h : r1 ≤ r2) :
    labelRank (decision_label r1 cfg) ≤ labelRank (decision_label r2 cfg)
    ∧ decision_label 80 cfg0 = "BLOCK"
    ∧ decision_label 60 cfg0 = "MONITOR"
    ∧ decision_label 59 cfg0 = "IGNORE" := by
  refine ⟨?_, by decide, by decide, by decide⟩
  unfold decision_label
  split_ifs <;> simp_all [labelRank] <;> omega

/-- C5, witness: the theorem applied at a concrete risk pair. -/
theorem C5_witness :
    labelRank (decision_label 59 cfg0) ≤ labelRank (decision_label 80 cfg0)
    ∧ decision_label 80 cfg0 = "BLOCK"
    ∧ decision_label 60 cfg0 = "MONITOR"
    ∧ decision_label 59 cfg0 = "IGNORE" :=
  C5_decision_label_monotone cfg0 59 80 (by norm_num)

/-- A config whose base severity already exceeds the severity cap. -/
def cfgBase60 : Cfg := ⟨⟨⟨1/5, 1/5, 1/5, 1/5, 1/5⟩, 60, [], ⟨14, 25⟩⟩, ⟨80, 60⟩⟩

/-- C6, counterexample to the claim as stated: on the empty text,
compute_severity returns the bare base_severity with no boosts and no
cap, so with base_severity 60 the result is 60, above the documented
cap of 50. -/
theorem C6_counterexample :
    compute_severity "" cfgBase60 = 60 ∧ ¬((60 : ℤ) ≤ 50) := by
  exact ⟨by decide, by decide⟩

/-- Folding an if-guarded accumulation equals the base plus the sum over
the filtered list. -/
theorem foldl_boost {α : Type} (P : α → Bool) (f : α → ℤ) :
    ∀ (l : List α) (b : ℤ),
      List.foldl (fun s x => if P x then s + f x else s) b l
        = b + ((l.filter P).map f).sum := by
  intro l
  induction l with
  | nil => intro b; simp
  | cons a t ih =>
    intro b
    by_cases h : P a = true
    · rw [List.foldl_cons, if_pos h, List.filter_cons_of_pos h, List.map_cons,
        List.sum_cons, ih]
      omega
    · rw [List.foldl_cons, if_neg h, List.filter_cons_of_neg (by simpa using h), ih]

/-- C6 (amended): on every non-empty text (in particular on every text
compute_risk_score builds, which always contains a newline), the
severity component equals base_severity plus the configured boost points
of every severity keyword occurring case-insensitively in the text,
capped at 50, and hence never exceeds 50; on the empty text the source
short-circuits to the bare uncapped base_severity instead. -/
theorem C6_amended_severity_formula (text : String) (cfg : Cfg) (h : text ≠ "") :
    compute_severity text cfg
      = min 50 (cfg.scoring.base_severity
          + ((cfg.scoring.severity_keywords.filter
              (fun kp => pyIn (pyLower kp.1) (pyLower text))).map Prod.snd).sum)
    ∧ compute_severity text cfg ≤ 50 := by
  have he : compute_severity text cfg
      = min 50 (cfg.scoring.base_severity
          + ((cfg.scoring.severity_keywords.filter
              (fun kp => pyIn (pyLower kp.1) (pyLower text))).map Prod.snd).sum) := by
    simp only [compute_severity, if_neg h]
    rw [foldl_boost]
  exact ⟨he, by rw [he]; exact min_le_left _ _⟩

/-- C6, witness: the amended theorem applied to a concrete text. -/
theorem C6_witness :
    compute_severity "Ransomware hits" cfg0
      = min 50 (cfg0.scoring.base_severity
          + ((cfg0.scoring.severity_keywords.filter
              (fun kp => pyIn (pyLower kp.1) (pyLower "Ransomware hits"))).map Prod.snd).sum)
    ∧ compute_severity "Ransomware hits" cfg0 ≤ 50 :=
  C6_amended_severity_formula "Ransomware hits" cfg0 (by decide)

/-- Like cfg0 but with a non-positive recency max_days. -/
def cfgZeroMD : Cfg := ⟨⟨⟨1/5, 1/5, 1/5, 1/5, 1/5⟩, 10, [], ⟨0, 25⟩⟩, ⟨80, 60⟩⟩

/-- C7, counterexample to the claim as stated: with max_points = -1 the
score rises from -1 to 0 as age grows (not non-increasing); with
max_days = 0 the age-0 score is 0, not max_points; with the fractional
max_points = 24.6 the age-0 score is 25, not max_points. -/
theorem C7_counterexample :
    ¬(recency_points_of_age cfgNegMP 14 ≤ recency_points_of_age cfgNegMP 0)
    ∧ ¬((recency_points_of_age cfgZeroMD 0 : ℚ)
          = cfgZeroMD.scoring.recency.max_points)
    ∧ ¬((recency_points_of_age cfgFracMP 0 : ℚ)
          = cfgFracMP.scoring.recency.max_points) := by
  have h0 : recency_points_of_age cfgNegMP 0 = -1 := by
    simp only [recency_points_of_age, cfgNegMP]
    norm_num [pyRound_neg_one]
  have h14 : recency_points_of_age cfgNegMP 14 = 0 := by
    simp only [recency_points_of_age, cfgNegMP]
    norm_num
  have hz : recency_points_of_age cfgZeroMD 0 = 0 := by
    simp only [recency_points_of_age, cfgZeroMD]
    norm_num
  have hf : recency_points_of_age cfgFracMP 0 = 25 := by
    simp only [recency_points_of_age, cfgFracMP]
    norm_num [pyRound_of_246]
  refine ⟨?_, ?_, ?_⟩
  · rw [h0, h14]; norm_num
  · rw [hz]; norm_num [cfgZeroMD]
  · rw [hf]; norm_num [cfgFracMP]

/-- C7 (amended): provided the configured max_points is a non-negative
integer, the recency score is non-increasing over non-negative ages; it
is exactly 0 whenever the age reaches max_days (for every config); and
it is exactly max_points at age 0 provided additionally max_days is
positive. -/
theorem C7_amended_recency_decay (cfg : Cfg) (a1 a2 d : ℚ) (mp : ℤ) :
    (0 ≤ a1 → a1 ≤ a2 → cfg.scoring.recency.max_points = (mp : ℚ) → 0 ≤ mp →
        recency_points_of_age cfg a2 ≤ recency_points_of_age cfg a1)
    ∧ (cfg.scoring.recency.max_days ≤ d → recency_points_of_age cfg d = 0)
    ∧ (0 < cfg.scoring.recency.max_days →
        cfg.scoring.recency.max_points = (mp : ℚ) →
        recency_points_of_age cfg 0 = mp) :=
  ⟨fun h0 h12 hmp hmp0 => recency_points_of_age_antitone cfg a1 a2 h0 h12 mp hmp hmp0,
   fun hd => recency_points_of_age_zero cfg d hd,
   fun hmd hmp => recency_points_of_age_at_zero cfg mp hmd hmp⟩

/-- C7, witness: the amended theorem applied to cfg0 at concrete ages. -/
theorem C7_witness :
    recency_points_of_age cfg0 7 ≤ recency_points_of_age cfg0 3
    ∧ recency_points_of_age cfg0 20 = 0
    ∧ recency_points_of_age cfg0 0 = 25 :=
  ⟨(C7_amended_recency_decay cfg0 3 7 20 25).1 (by norm_num) (by norm_num)
      (by norm_num [cfg0]) (by norm_num),
   (C7_amended_recency_decay cfg0 3 7 20 25).2.1 (by norm_num [cfg0]),
   (C7_amended_recency_decay cfg0 3 7 20 25).2.2 (by norm_num [cfg0])
      (by norm_num [cfg0])⟩

/-!
Sorting and trend-partition lemmas.
-/

theorem insertLe_perm {α : Type} (le : α → α → Bool) (a : α) (l : List α) :
    (insertLe le a l).Perm (a :: l) := by
  induction l with
  | nil => simp [insertLe]
  | cons b bs ih =>
    simp only [insertLe]
    split_ifs
    · exact List.Perm.refl _
    · exact (ih.cons b).trans (List.Perm.swap a b bs)

theorem sortLe_perm {α : Type} (le : α → α → Bool) (l : List α) :
    (sortLe le l).Perm l := by
  induction l with
  | nil => exact List.Perm.refl _
  | cons a as ih => exact (insertLe_perm le a (sortLe le as)).trans (ih.cons a)

/-- A key appearing in a truncated sorted filtered delta list comes from
a delta entry satisfying the filter. -/
theorem take_sort_filter_key {g : String × ℤ → Bool} {le : String × ℤ → String × ℤ → Bool}
    {deltas : List (String × ℤ)} {n : Nat} {k : String}
    (hk : k ∈ ((sortLe le (deltas.filter g)).take n).map Prod.fst) :
    ∃ p : String × ℤ, p ∈ deltas ∧ g p = true ∧ p.1 = k := by
  obtain ⟨p, hp, rfl⟩ := List.mem_map.mp hk
  have hp2 := (sortLe_perm le _).mem_iff.mp (List.take_subset _ _ hp)
  obtain ⟨hpd, hg⟩ := List.mem_filter.mp hp2
  exact ⟨p, hpd, hg, rfl⟩

/-- Conversely, when no truncation happens, every delta entry passing
the filter contributes its key. -/
theorem mem_take_sort_filter {g : String × ℤ → Bool} {le : String × ℤ → String × ℤ → Bool}
    {deltas : List (String × ℤ)} {n : Nat} {k : String}
    (hlen : deltas.length ≤ n) (p : String × ℤ) (hpd : p ∈ deltas)
    (hg : g p = true) (hpk : p.1 = k) :
    k ∈ ((sortLe le (deltas.filter g)).take n).map Prod.fst := by
  have hfl : (deltas.filter g).length ≤ n :=
    le_trans (List.length_filter_le _ _) hlen
  have hsl : (sortLe le (deltas.filter g)).length = (deltas.filter g).length :=
    (sortLe_perm le _).length_eq
  rw [List.take_of_length_le (by rw [hsl]; exact hfl)]
  exact List.mem_map.mpr
    ⟨p, (sortLe_perm le _).mem_iff.mpr (List.mem_filter.mpr ⟨hpd, hg⟩), hpk⟩

/-- C3, counterexample to the claim as stated: with top_n = 1, both keys
of curr have positive delta but only one fits in the truncated rising
list, so the union of the three partitions misses key b. -/
theorem C3_counterexample :
    ("b" ∈ ([("a", 1), ("b", 1)] : List (String × Nat)).map Prod.fst)
    ∧ "b" ∉ ((theme_trends [("a", 1), ("b", 1)] [] 1).rising.map Prod.fst)
    ∧ "b" ∉ ((theme_trends [("a", 1), ("b", 1)] [] 1).falling.map Prod.fst)
    ∧ "b" ∉ ((theme_trends [("a", 1), ("b", 1)] [] 1).stable.map Prod.fst) :=
  ⟨by decide, by decide, by decide, by decide⟩

/-- C3 (amended): for every pair of counters and every top_n the three
lists of theme_trends are pairwise key-disjoint, and whenever top_n is
at least the number of distinct keys (so the per-list truncation cannot
drop anything) the union of their keys equals the union of the keys of
curr and prev. -/
theorem C3_amended_trend_partition (curr prev : List (String × Nat)) (top_n : Nat) :
    (∀ k : String,
        ¬(k ∈ (theme_trends curr prev top_n).rising.map Prod.fst
          ∧ k ∈ (theme_trends curr prev top_n).falling.map Prod.fst)
      ∧ ¬(k ∈ (theme_trends curr prev top_n).rising.map Prod.fst
          ∧ k ∈ (theme_trends curr prev top_n).stable.map Prod.fst)
      ∧ ¬(k ∈ (theme_trends curr prev top_n).falling.map Prod.fst
          ∧ k ∈ (theme_trends curr prev top_n).stable.map Prod.fst))
    ∧ ((curr.map Prod.fst ++ prev.map Prod.fst).dedup.length ≤ top_n →
      ∀ k : String,
        (k ∈ (theme_trends curr prev top_n).rising.map Prod.fst
          ∨ k ∈ (theme_trends curr prev top_n).falling.map Prod.fst
          ∨ k ∈ (theme_trends curr prev top_n).stable.map Prod.fst)
        ↔ (k ∈ curr.map Prod.fst ∨ k ∈ prev.map Prod.fst)) := by
  have hr : (theme_trends curr prev top_n).rising
      = (sortLe (fun a b => b.2 ≤ a.2)
          (((curr.map Prod.fst ++ prev.map Prod.fst).dedup.map
            (fun k => (k, (cget curr k : ℤ) - (cget prev k : ℤ)))).filter
              (fun x => 0 < x.2))).take top_n := rfl
  have hf : (theme_trends curr prev top_n).falling
      = (sortLe (fun a b => a.2 ≤ b.2)
          (((curr.map Prod.fst ++ prev.map Prod.fst).dedup.map
            (fun k => (k, (cget curr k : ℤ) - (cget prev k : ℤ)))).filter
              (fun x => x.2 < 0))).take top_n := rfl
  have hs : (theme_trends curr prev top_n).stable
      = (sortLe (fun a b => cget curr b.1 ≤ cget curr a.1)
          (((curr.map Prod.fst ++ prev.map Prod.fst).dedup.map
            (fun k => (k, (cget curr k : ℤ) - (cget prev k : ℤ)))).filter
              (fun x => x.2 = 0))).take top_n := rfl
  have key_delta : ∀ p : String × ℤ,
      p ∈ (curr.map Prod.fst ++ prev.map Prod.fst).dedup.map
        (fun k => (k, (cget curr k : ℤ) - (cget prev k : ℤ))) →
      p.2 = (cget curr p.1 : ℤ) - (cget prev p.1 : ℤ)
        ∧ p.1 ∈ (curr.map Prod.fst ++ prev.map Prod.fst).dedup := by
    intro p hp
    obtain ⟨a, ha, rfl⟩ := List.mem_map.mp hp
    exact ⟨rfl, ha⟩
  have from_rising : ∀ k : String,
      k ∈ (theme_trends curr prev top_n).rising.map Prod.fst →
      0 < (cget curr k : ℤ) - (cget prev k : ℤ) := by
    intro k hk
    rw [hr] at hk
    obtain ⟨p, hpd, hg, rfl⟩ := take_sort_filter_key hk
    have h1 := (key_delta p hpd).1
    have h2 : 0 < p.2 := by simpa using hg
    omega
  have from_falling : ∀ k : String,
      k ∈ (theme_trends curr prev top_n).falling.map Prod.fst →
      (cget curr k : ℤ) - (cget prev k : ℤ) < 0 := by
    intro k hk
    rw [hf] at hk
    obtain ⟨p, hpd, hg, rfl⟩ := take_sort_filter_key hk
    have h1 := (key_delta p hpd).1
    have h2 : p.2 < 0 := by simpa using hg
    omega
  have from_stable : ∀ k : String,
      k ∈ (theme_trends curr prev top_n).stable.map Prod.fst →
      (cget curr k : ℤ) - (cget prev k : ℤ) = 0 := by
    intro k hk
    rw [hs] at hk
    obtain ⟨p, hpd, hg, rfl⟩ := take_sort_filter_key hk
    have h1 := (key_delta p hpd).1
    have h2 : p.2 = 0 := by simpa using hg
    omega
  have to_keys : ∀ k : String,
      k ∈ (theme_trends curr prev top_n).rising.map Prod.fst
        ∨ k ∈ (theme_trends curr prev top_n).falling.map Prod.fst
        ∨ k ∈ (theme_trends curr prev top_n).stable.map Prod.fst →
      k ∈ (curr.map Prod.fst ++ prev.map Prod.fst).dedup := by
    intro k hk
    rcases hk with hk | hk | hk
    · rw [hr] at hk
      obtain ⟨p, hpd, _, rfl⟩ := take_sort_filter_key hk
      exact (key_delta p hpd).2
    · rw [hf] at hk
      obtain ⟨p, hpd, _, rfl⟩ := take_sort_filter_key hk
      exact (key_delta p hpd).2
    · rw [hs] at hk
      obtain ⟨p, hpd, _, rfl⟩ := take_sort_filter_key hk
      exact (key_delta p hpd).2
  constructor
  · intro k
    refine ⟨?_, ?_, ?_⟩
    · rintro ⟨h1, h2⟩
      have := from_rising k h1
      have := from_falling k h2
      omega
    · rintro ⟨h1, h2⟩
      have := from_rising k h1
      have := from_stable k h2
      omega
    · rintro ⟨h1, h2⟩
      have := from_falling k h1
      have := from_stable k h2
      omega
  · intro hlen k
    have hdl : ((curr.map Prod.fst ++ prev.map Prod.fst).dedup.map
        (fun k => (k, (cget curr k : ℤ) - (cget prev k : ℤ)))).length ≤ top_n := by
      rw [List.length_map]
      exact hlen
    constructor
    · intro hk
      have hks := to_keys k hk
      rw [List.mem_dedup, List.mem_append] at hks
      exact hks
    · intro hk
      have hks : k ∈ (curr.map Prod.fst ++ prev.map Prod.fst).dedup := by
        rw [List.mem_dedup, List.mem_append]
        exact hk
      have hpd : (k, (cget curr k : ℤ) - (cget prev k : ℤ))
          ∈ (curr.map Prod.fst ++ prev.map Prod.fst).dedup.map
            (fun k => (k, (cget curr k : ℤ) - (cget prev k : ℤ))) :=
        List.mem_map_of_mem _ hks
      rcases lt_trichotomy ((cget curr k : ℤ) - (cget prev k : ℤ)) 0 with hd | hd | hd
      · refine Or.inr (Or.inl ?_)
        rw [hf]
        exact mem_take_sort_filter hdl _ hpd (by simpa using hd) rfl
      · refine Or.inr (Or.inr ?_)
        rw [hs]
        exact mem_take_sort_filter hdl _ hpd (by simpa using hd) rfl
      · refine Or.inl ?_
        rw [hr]
        exact mem_take_sort_filter hdl _ hpd (by simpa using hd) rfl

/-- C3, witness: the amended theorem applied to concrete counters. -/
theorem C3_witness :
    (¬("ransomware" ∈ (theme_trends [("ransomware", 5)] [("ddos", 2)] 6).rising.map Prod.fst
        ∧ "ransomware" ∈ (theme_trends [("ransomware", 5)] [("ddos", 2)] 6).falling.map Prod.fst)
      ∧ ¬("ransomware" ∈ (theme_trends [("ransomware", 5)] [("ddos", 2)] 6).rising.map Prod.fst
        ∧ "ransomware" ∈ (theme_trends [("ransomware", 5)] [("ddos", 2)] 6).stable.map Prod.fst)
      ∧ ¬("ransomware" ∈ (theme_trends [("ransomware", 5)] [("ddos", 2)] 6).falling.map Prod.fst
        ∧ "ransomware" ∈ (theme_trends [("ransomware", 5)] [("ddos", 2)] 6).stable.map Prod.fst))
    ∧ (("ransomware" ∈ (theme_trends [("ransomware", 5)] [("ddos", 2)] 6).rising.map Prod.fst
        ∨ "ransomware" ∈ (theme_trends [("ransomware", 5)] [("ddos", 2)] 6).falling.map Prod.fst
        ∨ "ransomware" ∈ (theme_trends [("ransomware", 5)] [("ddos", 2)] 6).stable.map Prod.fst)
      ↔ ("ransomware" ∈ ([("ransomware", 5)] : List (String × Nat)).map Prod.fst
        ∨ "ransomware" ∈ ([("ddos", 2)] : List (String × Nat)).map Prod.fst)) :=
  ⟨(C3_amended_trend_partition [("ransomware", 5)] [("ddos", 2)] 6).1 "ransomware",
   (C3_amended_trend_partition [("ransomware", 5)] [("ddos", 2)] 6).2 (by decide) "ransomware"⟩

/-!
Clustering lemmas: total member count, cluster-count bound, and the
degenerate all-empty-bags behaviour.
-/

/-- Total member count of a list of growing clusters. -/
def sumIdx (cs : List GCluster) : Nat := (cs.map (fun c => c.idx.length)).sum

theorem sumIdx_cons (c : GCluster) (cs : List GCluster) :
    sumIdx (c :: cs) = c.idx.length + sumIdx cs := by
  simp [sumIdx]

theorem place_sumIdx (th : ℚ) (b : List String) (i : Nat) :
    ∀ (cs cs' : List GCluster), place th b i cs = some cs' →
      sumIdx cs' = sumIdx cs + 1 := by
  intro cs
  induction cs with
  | nil =>
    intro cs' h
    simp [place] at h
  | cons c0 rest ih =>
    intro cs' h
    simp only [place] at h
    split_ifs at h
    · obtain rfl := Option.some.inj h
      rw [sumIdx_cons, sumIdx_cons, List.length_append]
      simp
      omega
    · cases hp : place th b i rest with
      | none => rw [hp] at h; simp at h
      | some cs'' =>
        rw [hp] at h
        simp only [Option.map] at h
        obtain rfl := Option.some.inj h
        rw [sumIdx_cons, sumIdx_cons, ih cs'' hp]
        omega

theorem stepCluster_sumIdx (th : ℚ) (cs : List GCluster) (p : Nat × List String) :
    sumIdx (stepCluster th cs p) = sumIdx cs + 1 := by
  simp only [stepCluster]
  cases hp : place th p.2 p.1 cs with
  | some cs' => exact place_sumIdx th p.2 p.1 cs cs' hp
  | none => simp [sumIdx]

theorem foldl_stepCluster_sumIdx (th : ℚ) :
    ∀ (l : List (Nat × List String)) (init : List GCluster),
      sumIdx (l.foldl (stepCluster th) init) = sumIdx init + l.length := by
  intro l
  induction l with
  | nil => intro init; simp
  | cons p t ih =>
    intro init
    rw [List.foldl_cons, ih, stepCluster_sumIdx]
    simp only [List.length_cons]
    omega

theorem greedyClusters_sumIdx (th : ℚ) (bags : List (List String)) :
    sumIdx (greedyClusters th bags) = bags.length := by
  rw [greedyClusters, foldl_stepCluster_sumIdx]
  simp [sumIdx, List.enum_length]

theorem sumIdx_perm {cs cs' : List GCluster} (h : cs.Perm cs') :
    sumIdx cs = sumIdx cs' := by
  simp only [sumIdx]
  exact (h.map (fun c => c.idx.length)).sum_eq

theorem sumIdx_take_drop (n : Nat) (cs : List GCluster) :
    sumIdx (cs.take n) + sumIdx (cs.drop n) = sumIdx cs := by
  conv_rhs => rw [← List.take_append_drop n cs]
  simp [sumIdx, List.map_append, List.sum_append]

theorem foldl_append_idx_length :
    ∀ (rest : List GCluster) (acc : List Nat),
      (rest.foldl (fun a r => a ++ r.idx) acc).length = acc.length + sumIdx rest := by
  intro rest
  induction rest with
  | nil => intro acc; simp [sumIdx]
  | cons r t ih =>
    intro acc
    rw [List.foldl_cons, ih, sumIdx_cons, List.length_append]
    omega

/-- The total member count reported by cluster_reports equals the number
of input texts. -/
theorem cluster_reports_count_sum (texts : List String) (mc : Nat) (th : ℚ) :
    ((cluster_reports texts mc th).map (fun c => c.count)).sum = texts.length := by
  have hout : ∀ cs : List GCluster,
      ((cs.map (fun c =>
        ({ count := c.idx.length, keywords := c.centroid.take 6 } : OutCluster))).map
          (fun c => c.count)).sum = sumIdx cs := by
    intro cs
    rw [List.map_map]
    rfl
  simp only [cluster_reports]
  have hsum : sumIdx (sortLe (fun a b => b.idx.length ≤ a.idx.length)
      (greedyClusters th (texts.map _bag))) = texts.length := by
    rw [sumIdx_perm (sortLe_perm _ (greedyClusters th (texts.map _bag))),
      greedyClusters_sumIdx, List.length_map]
  split_ifs with hrest
  · rw [hout]
    have hlen : (greedyClusters th (texts.map _bag)).length ≤ mc := by
      have := List.drop_eq_nil_iff.mp hrest
      rwa [(sortLe_perm _ _).length_eq] at this
    rw [List.take_of_length_le (by rwa [(sortLe_perm _ _).length_eq])]
    exact hsum
  · rw [hout]
    rw [← hsum, ← sumIdx_take_drop mc (sortLe (fun a b => b.idx.length ≤ a.idx.length)
      (greedyClusters th (texts.map _bag)))]
    simp only [sumIdx, List.map_append, List.sum_append, List.map_cons, List.map_nil,
      List.sum_cons, List.sum_nil]
    rw [foldl_append_idx_length]
    simp [sumIdx]

/-- cluster_reports never returns more than max_clusters + 1 clusters. -/
theorem cluster_reports_length_le (texts : List String) (mc : Nat) (th : ℚ) :
    (cluster_reports texts mc th).length ≤ mc + 1 := by
  simp only [cluster_reports]
  split_ifs with hrest
  · rw [List.length_map]
    calc (List.take mc _).length ≤ mc := by
          rw [List.length_take]
          exact min_le_left mc _
      _ ≤ mc + 1 := Nat.le_succ mc
  · rw [List.length_map, List.length_append, List.length_take]
    have := min_le_left mc (sortLe (fun a b => b.idx.length ≤ a.idx.length)
      (greedyClusters th (texts.map _bag))).length
    simp only [List.length_cons, List.length_nil]
    omega

/-- C4: for every input list, cluster cap and similarity threshold,
cluster_reports returns at most max_clusters + 1 clusters and the member
counts of the returned clusters sum to the number of input texts. -/
theorem C4_cluster_count_invariants (texts : List String) (max_clusters : Nat)
    (sim_threshold : ℚ) :
    (cluster_reports texts max_clusters sim_threshold).length ≤ max_clusters + 1
    ∧ ((cluster_reports texts max_clusters sim_threshold).map (fun c => c.count)).sum
        = texts.length :=
  ⟨cluster_reports_length_le texts max_clusters sim_threshold,
   cluster_reports_count_sum texts max_clusters sim_threshold⟩

theorem place_centroid_empty (th : ℚ) (i : Nat) :
    ∀ (cs cs' : List GCluster), place th [] i cs = some cs' →
      (∀ c ∈ cs, c.centroid = []) → ∀ c ∈ cs', c.centroid = [] := by
  intro cs
  induction cs with
  | nil =>
    intro cs' h
    simp [place] at h
  | cons c0 rest ih =>
    intro cs' h hall
    simp only [place] at h
    split_ifs at h
    · obtain rfl := Option.some.inj h
      intro c hc
      rcases List.mem_cons.mp hc with hc | hc
      · subst hc
        have h0 : c0.centroid = [] := hall c0 (List.mem_cons_self c0 rest)
        simp [h0]
        rfl
      · exact hall c (List.mem_cons_of_mem c0 hc)
    · cases hp : place th [] i rest with
      | none => rw [hp] at h; simp at h
      | some cs'' =>
        rw [hp] at h
        simp only [Option.map] at h
        obtain rfl := Option.some.inj h
        intro c hc
        rcases List.mem_cons.mp hc with hc | hc
        · subst hc
          exact hall c (List.mem_cons_self c rest)
        · exact ih cs'' hp (fun c' hc' => hall c' (List.mem_cons_of_mem c0 hc')) c hc

theorem stepCluster_centroid_empty (th : ℚ) (cs : List GCluster)
    (p : Nat × List String) (hb : p.2 = [])
    (hall : ∀ c ∈ cs, c.centroid = []) :
    ∀ c ∈ stepCluster th cs p, c.centroid = [] := by
  simp only [stepCluster]
  cases hp : place th p.2 p.1 cs with
  | some cs' =>
    rw [hb] at hp
    exact place_centroid_empty th p.1 cs cs' hp hall
  | none =>
    intro c hc
    rcases List.mem_append.mp hc with hc | hc
    · exact hall c hc
    · rw [List.mem_singleton.mp hc]
      exact hb

theorem greedy_centroid_empty (th : ℚ) :
    ∀ (l : List (Nat × List String)) (init : List GCluster),
      (∀ p ∈ l, p.2 = ([] : List String)) → (∀ c ∈ init, c.centroid = []) →
      ∀ c ∈ l.foldl (stepCluster th) init, c.centroid = [] := by
  intro l
  induction l with
  | nil =>
    intro init _ hinit
    exact hinit
  | cons p t ih =>
    intro init hl hinit
    rw [List.foldl_cons]
    exact ih (stepCluster th init p)
      (fun q hq => hl q (List.mem_cons_of_mem p hq))
      (stepCluster_centroid_empty th init p (hl p (List.mem_cons_self p t)) hinit)

theorem foldl_union_empty :
    ∀ (rest : List GCluster), (∀ c ∈ rest, c.centroid = ([] : List String)) →
      rest.foldl (fun a r => a.union r.centroid) [] = [] := by
  intro rest
  induction rest with
  | nil => intro _; rfl
  | cons r t ih =>
    intro hall
    rw [List.foldl_cons]
    have h0 : r.centroid = [] := hall r (List.mem_cons_self r t)
    rw [h0]
    exact ih (fun c hc => hall c (List.mem_cons_of_mem r hc))

/-- The default similarity threshold 0.22 of cluster_reports. -/
def simTh : ℚ := ⟨11, 50, by norm_num, by norm_num⟩

/-- C8, counterexample to the claim as stated: two texts with empty
keyword bags do not collapse to zero clusters or one cluster; each opens
its own (empty-centroid) singleton cluster, because the Jaccard
similarity against an empty bag is 0, below the threshold 0.22. -/
theorem C8_counterexample :
    (cluster_reports ["", ""] 3 simTh).length = 2
    ∧ ¬((cluster_reports ["", ""] 3 simTh).length = 0
        ∨ (cluster_reports ["", ""] 3 simTh).length = 1) :=
  ⟨by decide, by decide⟩

/-- C8 (amended): on texts that all tokenize to empty keyword bags,
cluster_reports still never raises and every cluster it returns has an
empty centroid (no representative keywords); it returns zero clusters
exactly when the input is empty, but with several texts and a positive
threshold it returns several empty singleton clusters rather than at
most one. -/
theorem C8_amended_degenerate_clustering (texts : List String) (mc : Nat) (th : ℚ)
    (h : ∀ t ∈ texts, _bag t = []) :
    (∀ oc ∈ cluster_reports texts mc th, oc.keywords = [])
    ∧ (cluster_reports texts mc th = [] ↔ texts = []) := by
  have hbags : ∀ p ∈ (texts.map _bag).enum, p.2 = ([] : List String) := by
    intro p hp
    have h2 : p.2 ∈ texts.map _bag := by
      have := List.mem_enum_iff_getElem?.mp hp
      exact List.getElem?_mem this
    obtain ⟨t, ht, hx⟩ := List.mem_map.mp h2
    rw [← hx]
    exact h t ht
  have hclusters : ∀ c ∈ greedyClusters th (texts.map _bag), c.centroid = [] :=
    greedy_centroid_empty th _ [] hbags (by intro c hc; simp at hc)
  have hsorted : ∀ c ∈ sortLe (fun a b => b.idx.length ≤ a.idx.length)
      (greedyClusters th (texts.map _bag)), c.centroid = [] := by
    intro c hc
    exact hclusters c ((sortLe_perm _ _).mem_iff.mp hc)
  constructor
  · intro oc hoc
    simp only [cluster_reports] at hoc
    rcases List.mem_map.mp hoc with ⟨c, hc, rfl⟩
    have hcent : c.centroid = [] := by
      split_ifs at hc with hrest
      · exact hsorted c (List.take_subset mc _ hc)
      · rcases List.mem_append.mp hc with hc | hc
        · exact hsorted c (List.take_subset mc _ hc)
        · rw [List.mem_singleton.mp hc]
          exact foldl_union_empty _ (fun c' hc' => hsorted c' (List.drop_subset mc _ hc'))
    simp [hcent]
  · constructor
    · intro hemp
      have hsum := cluster_reports_count_sum texts mc th
      rw [hemp] at hsum
      simp at hsum
      exact List.length_eq_zero.mp hsum.symm
    · intro hemp
      subst hemp
      simp [cluster_reports, greedyClusters, sortLe]

/-- C8, witness: the amended theorem applied to two empty texts with the
default threshold. -/
theorem C8_witness :
    (⟨1, []⟩ : OutCluster).keywords = []
    ∧ (cluster_reports ["", ""] 3 simTh = [] ↔ (["", ""] : List String) = []) :=
  ⟨(C8_amended_degenerate_clustering ["", ""] 3 simTh (by decide)).1
      ⟨1, []⟩ (by decide),
   (C8_amended_degenerate_clustering ["", ""] 3 simTh (by decide)).2⟩

/-!
Theme-counter lemmas for C10.
-/

theorem bump_bound (k : String) :
    ∀ (c : List (String × Nat)) (p : String × Nat), p ∈ bump c k →
      p ∈ c ∨ (p.1 = k ∧ (p.2 = 1 ∨ ∃ n, (k, n) ∈ c ∧ p.2 = n + 1)) := by
  intro c
  induction c with
  | nil =>
    intro p hp
    simp only [bump, List.mem_singleton] at hp
    subst hp
    exact Or.inr ⟨rfl, Or.inl rfl⟩
  | cons hd tl ih =>
    obtain ⟨k', n⟩ := hd
    intro p hp
    simp only [bump] at hp
    split_ifs at hp with he
    · rcases List.mem_cons.mp hp with hp | hp
      · subst hp
        subst he
        exact Or.inr ⟨rfl, Or.inr ⟨n, List.mem_cons_self _ _, rfl⟩⟩
      · exact Or.inl (List.mem_cons_of_mem _ hp)
    · rcases List.mem_cons.mp hp with hp | hp
      · subst hp
        exact Or.inl (List.mem_cons_self _ _)
      · rcases ih p hp with h | ⟨h1, h2⟩
        · exact Or.inl (List.mem_cons_of_mem _ h)
        · refine Or.inr ⟨h1, ?_⟩
          rcases h2 with h2 | ⟨n0, hn0, h2⟩
          · exact Or.inl h2
          · exact Or.inr ⟨n0, List.mem_cons_of_mem _ hn0, h2⟩

theorem inner_fold_ok (m : Nat) (t : String) :
    ∀ (l : List String), l.Nodup → (∀ k ∈ l, k ∈ THEME_KEYWORDS) →
    ∀ c : List (String × Nat),
      (∀ p ∈ c, p.1 ∈ THEME_KEYWORDS ∧ 1 ≤ p.2 ∧ p.2 ≤ m + 1 ∧ (p.1 ∈ l → p.2 ≤ m)) →
      ∀ p ∈ l.foldl (fun c' k => if pyIn k (pyLower t) then bump c' k else c') c,
        p.1 ∈ THEME_KEYWORDS ∧ 1 ≤ p.2 ∧ p.2 ≤ m + 1 := by
  intro l
  induction l with
  | nil =>
    intro _ _ c hc p hp
    rw [List.foldl_nil] at hp
    have h := hc p hp
    exact ⟨h.1, h.2.1, h.2.2.1⟩
  | cons k0 rest ih =>
    intro hnd hsub c hc
    rw [List.foldl_cons]
    apply ih (List.Nodup.of_cons hnd)
      (fun k hk => hsub k (List.mem_cons_of_mem k0 hk))
    intro p hp
    by_cases hin : pyIn k0 (pyLower t) = true
    · rw [if_pos hin] at hp
      rcases bump_bound k0 c p hp with hmem | ⟨h1, h2⟩
      · have h := hc p hmem
        exact ⟨h.1, h.2.1, h.2.2.1,
          fun hrest => h.2.2.2 (List.mem_cons_of_mem k0 hrest)⟩
      · have hk0 : k0 ∈ THEME_KEYWORDS := hsub k0 (List.mem_cons_self k0 rest)
        have hnotin : k0 ∉ rest := (List.nodup_cons.mp hnd).1
        refine ⟨h1 ▸ hk0, ?_, ?_, ?_⟩
        · rcases h2 with h2 | ⟨n, _, h2⟩ <;> omega
        · rcases h2 with h2 | ⟨n, hn, h2⟩
          · omega
          · have hb : n ≤ m :=
              (hc (k0, n) hn).2.2.2 (List.mem_cons_self k0 rest)
            omega
        · intro hrest
          rw [h1] at hrest
          exact absurd hrest hnotin
    · rw [if_neg hin] at hp
      have h := hc p hp
      exact ⟨h.1, h.2.1, h.2.2.1,
        fun hrest => h.2.2.2 (List.mem_cons_of_mem k0 hrest)⟩

theorem theme_keywords_nodup : THEME_KEYWORDS.Nodup := by decide

theorem theme_counts_fold_ok :
    ∀ (ts : List String) (c : List (String × Nat)) (m : Nat),
      (∀ p ∈ c, p.1 ∈ THEME_KEYWORDS ∧ 1 ≤ p.2 ∧ p.2 ≤ m) →
      ∀ p ∈ ts.foldl (fun c' t => THEME_KEYWORDS.foldl
          (fun c'' k => if pyIn k (pyLower t) then bump c'' k else c'') c') c,
        p.1 ∈ THEME_KEYWORDS ∧ 1 ≤ p.2 ∧ p.2 ≤ m + ts.length := by
  intro ts
  induction ts with
  | nil =>
    intro c m hc p hp
    rw [List.foldl_nil] at hp
    have h := hc p hp
    exact ⟨h.1, h.2.1, by simpa using h.2.2⟩
  | cons t ts0 ih =>
    intro c m hc
    rw [List.foldl_cons]
    intro p hp
    have hstep : ∀ q ∈ THEME_KEYWORDS.foldl
        (fun c'' k => if pyIn k (pyLower t) then bump c'' k else c'') c,
        q.1 ∈ THEME_KEYWORDS ∧ 1 ≤ q.2 ∧ q.2 ≤ m + 1 := by
      apply inner_fold_ok m t THEME_KEYWORDS theme_keywords_nodup (fun k hk => hk)
      intro q hq
      have h := hc q hq
      exact ⟨h.1, h.2.1, by omega, fun _ => h.2.2⟩
    have h := ih _ (m + 1) hstep p hp
    refine ⟨h.1, h.2.1, ?_⟩
    have := h.2.2
    simp only [List.length_cons]
    omega

/-- C10: every entry of the counter returned by theme_counts has a key
from the fixed 11-keyword vocabulary and a count between 1 and the
number of input texts (each text bumps each keyword at most once; a
keyword never appears with count 0). -/
theorem C10_theme_counts_bounds (texts : List String) (p : String × Nat)
    (hp : p ∈ theme_counts texts) :
    p.1 ∈ THEME_KEYWORDS ∧ 1 ≤ p.2 ∧ p.2 ≤ texts.length := by
  rw [theme_counts] at hp
  have h := theme_counts_fold_ok texts [] 0 (by intro q hq; simp at hq) p hp
  exact ⟨h.1, h.2.1, by simpa using h.2.2⟩

/-- C10, witness: the theorem applied to a concrete counter entry. -/
theorem C10_witness :
    ("ransomware" : String) ∈ THEME_KEYWORDS
    ∧ 1 ≤ (("ransomware", 1) : String × Nat).2
    ∧ (("ransomware", 1) : String × Nat).2 ≤ (["Ransomware spree"] : List String).length :=
  C10_theme_counts_bounds ["Ransomware spree"] ("ransomware", 1) (by decide)
